import Mathlib

/-!
Formal model of the EaterCpu gate-level digital-logic simulator
(`src/eater/part.py` and `src/eater/assembly.py`), with proofs about the
signal network (`Junction`, `VoltageSource`), the integer/bit conversions
(`list_to_int`, `int_to_list`), and the chip models (`FourBitDRegister`,
`BinaryCounter`, `Ram`, the 74-series gate arrays, and the `Output` unit).

Python `Optional[bool]` logic levels are embedded as `Option Bool`
(`none` = floating); Python truthiness (`None` and `False` are falsy) is
the `truthy` function.  Chip `evaluate` methods become pure transition
functions from (resolved input pin levels, internal state) to a new
internal state, with the chip's own drive contribution on each output pin
recorded as `Option _` (`none` = this chip's voltage source is detached,
i.e. the pin is released).  Failures (Python `raise` / failed `assert`)
become `Except String`.
-/

namespace Eater

/-- Python truthiness of an `Optional[bool]` logic level: `None` and `False`
are falsy, `True` is truthy.  (`x or False` in the source is `truthy x`.) -/
def truthy (b : Option Bool) : Bool :=
  b.getD false

/-- `list_to_int` from `part.py`: starting from 0, OR `1 << i` into the
accumulator for every index `i` whose bit is truthy.  The Python parameter is
annotated `List[bool]` but callers pass pin states (`Optional[bool]`), so the
embedding takes `Option Bool` and tests truthiness like `if bit:` does. -/
def list_to_int (values : List (Option Bool)) : Nat :=
  values.enum.foldl
    (fun value p => if truthy p.2 then value ||| (1 <<< p.1) else value) 0

/-- `int_to_list` from `part.py`: bit `i` of the result is
`value & (1 << i) != 0`, for `i` in `range(bits)`. -/
def int_to_list (value : Nat) (bits : Nat) : List Bool :=
  (List.range bits).map (fun i => value &&& (1 <<< i) != 0)

/-!
## The junction network (`Junction` / `VoltageSource`)

Acyclic networks are embedded as finite trees: a node carries the values of
its directly attached voltage sources and its child conductors.
`Junction.state` collects the source values together with the non-`None`
states of the children, returns `none` (floating) when nothing is collected,
the common value when all collected levels agree, and raises
`ValueError("Conductors have different logic levels.")` otherwise.
-/

/-- A junction with its attached voltage-source values and child conductors
(acyclic form; the general, possibly cyclic arena form is `JGraph` below). -/
inductive JNode where
  | mk (sources : List Bool) (conductors : List JNode)

mutual

/-- `Junction.state`: merge the attached source levels with the non-floating
states of the child conductors.  Empty collection resolves floating; full
agreement resolves to the common level; disagreement raises `ValueError`.
The mutual helper `JNode.stateList` is the evaluation, in order, of
`c.state` for the conductors `c`, propagating the first error, exactly as the
list comprehension in the source does. -/
def JNode.state : JNode → Except String (Option Bool)
  | .mk sources conductors =>
    match JNode.stateList conductors with
    | .error e => .error e
    | .ok childStates =>
      let logicLevels := sources ++ childStates.filterMap id
      if logicLevels.isEmpty then
        .ok none
      else if !(logicLevels.all (fun b => b) || !logicLevels.any (fun b => b)) then
        .error "Conductors have different logic levels."
      else
        .ok (some (logicLevels.all (fun b => b)))

/-- States of a list of junctions, in order, first error propagated. -/
def JNode.stateList : List JNode → Except String (List (Option Bool))
  | [] => .ok []
  | c :: cs =>
    match JNode.state c with
    | .error e => .error e
    | .ok s =>
      match JNode.stateList cs with
      | .error e => .error e
      | .ok rest => .ok (s :: rest)

end

/-!
## The junction network in arena form (possibly cyclic)

`Junction.set`, `Junction.clear` and the `Junction.state` recursion walk the
`conductors` references with no cycle protection, so networks in which two
junctions reference each other must be representable.  The arena indexes
junctions by list position; the recursions take an explicit depth budget
(`fuel`), and exhausting every budget models the unbounded recursion of the
source (Python `RecursionError`).
-/

/-- One junction in the arena: attached voltage sources as (identity, value)
pairs — `Junction._sources` is a `set` of objects — and the arena indices of
the child conductors. -/
structure GNode where
  sources : List (Nat × Bool)
  conductors : List Nat

instance : Inhabited GNode :=
  ⟨⟨[], []⟩⟩

/-- A junction network as an arena indexed by list position. -/
abbrev JGraph := List GNode

/-- Evaluate `rec` on each child index in order, as the list comprehension in
`Junction.state` evaluates `c.state`; `none` = depth budget exhausted. -/
def statesVia (rec : Nat → Option (Except String (Option Bool))) :
    List Nat → Option (List (Except String (Option Bool)))
  | [] => some []
  | c :: cs =>
    match rec c with
    | none => none
    | some r =>
      match statesVia rec cs with
      | none => none
      | some rs => some (r :: rs)

/-- Sequence the child results: the first raised error propagates. -/
def collectStates : List (Except String (Option Bool)) →
    Except String (List (Option Bool))
  | [] => .ok []
  | .error e :: _ => .error e
  | .ok v :: rest =>
    match collectStates rest with
    | .error e => .error e
    | .ok vs => .ok (v :: vs)

/-- One unfolding of `Junction.state` on the arena: resolve the child
conductors through `rec`, then merge exactly as `JNode.state` does. -/
def stateStep (rec : Nat → Option (Except String (Option Bool))) (g : JGraph)
    (i : Nat) : Option (Except String (Option Bool)) :=
  let nd := g.getD i default
  match statesVia rec nd.conductors with
  | none => none
  | some results =>
    match collectStates results with
    | .error e => some (.error e)
    | .ok childStates =>
      let logicLevels := nd.sources.map Prod.snd ++ childStates.filterMap id
      if logicLevels.isEmpty then some (.ok none)
      else if !(logicLevels.all (fun b => b) || !logicLevels.any (fun b => b)) then
        some (.error "Conductors have different logic levels.")
      else some (.ok (some (logicLevels.all (fun b => b))))

/-- `Junction.state` on the arena with a recursion-depth budget. -/
def stateFuel (g : JGraph) : Nat → Nat → Option (Except String (Option Bool))
  | 0, _ => none
  | fuel + 1, i => stateStep (stateFuel g fuel) g i

/-- Resolving junction `i` terminates: some recursion depth suffices. -/
def resolves (g : JGraph) (i : Nat) : Prop :=
  ∃ fuel, (stateFuel g fuel i).isSome

/-- `Junction.set` body on one node: `self._sources.add(source)` (a `set`:
adding an already-attached identity changes nothing). -/
def addSource (nd : GNode) (src : Nat × Bool) : GNode :=
  if nd.sources.any (fun p => p.1 == src.1) then nd
  else { nd with sources := nd.sources ++ [src] }

/-- `Junction.clear` body on one node: remove the source identity when
attached. -/
def removeSource (nd : GNode) (srcId : Nat) : GNode :=
  { nd with sources := nd.sources.filter (fun p => !(p.1 == srcId)) }

/-- Run `rec` on every child conductor in order, threading the evolving
network. -/
def overChildren (rec : Nat → JGraph → Option JGraph) :
    List Nat → JGraph → Option JGraph
  | [], g => some g
  | c :: cs, g =>
    match rec c g with
    | none => none
    | some g2 => overChildren rec cs g2

/-- Shared recursion of `Junction.set` / `Junction.clear`: update node `i`'s
sources, then recurse into every child conductor, with a depth budget. -/
def touchFuel (upd : GNode → GNode) : Nat → Nat → JGraph → Option JGraph
  | 0, _, _ => none
  | fuel + 1, i, g =>
    let g2 := g.set i (upd (g.getD i default))
    overChildren (touchFuel upd fuel) ((g2.getD i default).conductors) g2

/-- `Junction.set` on the arena. -/
def setFuel (src : Nat × Bool) : Nat → Nat → JGraph → Option JGraph :=
  touchFuel (fun nd => addSource nd src)

/-- `Junction.clear` on the arena. -/
def clearFuel (srcId : Nat) : Nat → Nat → JGraph → Option JGraph :=
  touchFuel (fun nd => removeSource nd srcId)

/-- The wiring shape of the network: which indices each junction forwards to.
`set`/`clear` touch only sources, never the wiring. -/
def wiring (g : JGraph) : List (List Nat) :=
  g.map GNode.conductors

/-- Two junctions attached to each other as child conductors — the cyclic
network produced by a bidirectional attach. -/
def cycleGraph : JGraph :=
  [⟨[], [1]⟩, ⟨[], [0]⟩]

/-- An acyclic two-junction network: junction 0 forwards to junction 1,
which carries one voltage source at level `true`. -/
def chainGraph : JGraph :=
  [⟨[], [1]⟩, ⟨[(0, true)], []⟩]

/-!
## Powered parts

`PoweredPart.evaluate` asserts `self.VCC.state` truthy and `self.GND.state`
falsy; a failed Python `assert` raises, which we model as `Except.error`.
Chip `evaluate` methods become transitions on explicit state records; each
chip's drive contribution on an output pin is `some level` when its private
voltage source is attached and `none` after `pin.clear` (released).
-/

/-- The two power assertions of `PoweredPart.evaluate`, in source order. -/
def powerCheck (vcc gnd : Option Bool) : Except String Unit :=
  if !truthy vcc then .error "VCC is not high."
  else if truthy gnd then .error "GND is not low."
  else .ok ()

/-- `NandGate.evaluate` output level: `not all(input states)` (truthiness of
the two input pin states). -/
def nandLevel (a b : Option Bool) : Bool :=
  !(truthy a && truthy b)

/-- `NorGate.evaluate` output level: `not any(input states)`. -/
def norLevel (a b : Option Bool) : Bool :=
  !(truthy a || truthy b)

/-- Result of one gate-array `evaluate` call: the chip's drive on each Y
output after the call, and the raised error if the power assert failed. -/
structure GateArrayResult where
  yDrive : List (Option Bool)
  err : Option String

/-- `QuadNandGate` declares `(LogicPart, PoweredPart)`, so its `evaluate`
resolution order runs the power assertions *before* the gate loop: with bad
power the gates never run and the prior output drives survive. -/
def quadNandGateEvaluate (vcc gnd : Option Bool)
    (ins : List (Option Bool × Option Bool)) (prev : List (Option Bool)) :
    GateArrayResult :=
  match powerCheck vcc gnd with
  | .error e => ⟨prev, some e⟩
  | .ok _ => ⟨ins.map (fun p => some (nandLevel p.1 p.2)), none⟩

/-- `QuadNorGate` declares `(PoweredPart, LogicPart)`, so
`PoweredPart.evaluate` first calls `super().evaluate()` — the `LogicPart`
gate loop, which computes and drives every gate output — and only then runs
the power assertions: with bad power the outputs are driven and the
assertion error is raised afterwards.  (`HexNotGate`, `QuadAndGate`,
`QuadOrGate` and `QuadXorGate` declare the same base order.) -/
def quadNorGateEvaluate (vcc gnd : Option Bool)
    (ins : List (Option Bool × Option Bool)) (prev : List (Option Bool)) :
    GateArrayResult :=
  let ys := ins.map (fun p => some (norLevel p.1 p.2))
  match powerCheck vcc gnd with
  | .error e => ⟨ys, some e⟩
  | .ok _ => ⟨ys, none⟩

/-!
## `FourBitDRegister` (74LS173)
-/

/-- Internal state of a `FourBitDRegister`: the latched bits (`self._state`;
Python stores raw pin states, so an entry may be `None`), the last-seen
clock (`self._last_clock`), and the chip's drive on each Q output
(`none` after `out_pin.clear(vs)`). -/
structure DRegState where
  latch : List (Option Bool)
  lastClock : Bool
  qDrive : List (Option (Option Bool))

/-- Resolved input pin levels for one `FourBitDRegister.evaluate` call. -/
structure DRegInput where
  m : Option Bool
  n : Option Bool
  clr : Option Bool
  g1 : Option Bool
  g2 : Option Bool
  clk : Option Bool
  d : List (Option Bool)
  vcc : Option Bool
  gnd : Option Bool

/-- `FourBitDRegister.evaluate`: power assertions; release the Q outputs when
either output-enable pin (N, M) is truthy (no early return); clear to zero
and drive when CLR is truthy; return untouched when either data-enable pin
(G1, G2) is truthy; latch the D inputs and drive on a rising edge — and only
then is `self._last_clock` assigned (it is never updated on any other
path). -/
def dregEvaluate (inp : DRegInput) (s : DRegState) : Except String DRegState :=
  match powerCheck inp.vcc inp.gnd with
  | .error e => .error e
  | .ok _ =>
    let s1 :=
      if truthy inp.n || truthy inp.m then
        { s with qDrive := List.replicate 4 none }
      else s
    if truthy inp.clr then
      let cleared : List (Option Bool) := List.replicate 4 (some false)
      .ok { s1 with latch := cleared, qDrive := cleared.map some }
    else if truthy inp.g1 || truthy inp.g2 then
      .ok s1
    else if truthy inp.clk && !s1.lastClock then
      .ok { latch := inp.d, qDrive := inp.d.map some, lastClock := true }
    else
      .ok s1

/-!
## `BinaryCounter` (74LS161)
-/

/-- Internal state of a `BinaryCounter`: `self.count`, `self._last_clock`
(assigned raw `CLK.state`, so it may hold `None`), the chip's drive on the
Q outputs (attached only once `_write_count` has run) and on the CARRY pin
(attached at construction). -/
structure CounterState where
  count : Nat
  lastClock : Option Bool
  qDrive : List (Option Bool)
  carryDrive : Bool

/-- Resolved input pin levels for one `BinaryCounter.evaluate` call. -/
structure CounterInput where
  clr : Option Bool
  load : Option Bool
  clk : Option Bool
  enP : Option Bool
  enT : Option Bool
  d : List (Option Bool)
  vcc : Option Bool
  gnd : Option Bool

/-- `BinaryCounter.evaluate`: power assertions; active-low CLEAR zeroes the
count; active-low LOAD reads the count combinationally from the D inputs and
recomputes the carry; otherwise, when no rising edge is detected the
last-seen clock is updated and nothing else happens, and when a rising edge
is detected with both enables truthy the count increments modulo 16 and the
carry and outputs are recomputed — without updating the last-seen clock. -/
def counterEvaluate (inp : CounterInput) (s : CounterState) :
    Except String CounterState :=
  match powerCheck inp.vcc inp.gnd with
  | .error e => .error e
  | .ok _ =>
    if !truthy inp.clr then
      .ok { s with count := 0, qDrive := (int_to_list 0 4).map some }
    else if !truthy inp.load then
      let count := list_to_int inp.d
      .ok { count := count,
            lastClock := s.lastClock,
            qDrive := (int_to_list count 4).map some,
            carryDrive := count == 15 && truthy inp.enT }
    else if !(truthy inp.clk && !truthy s.lastClock) then
      .ok { s with lastClock := inp.clk }
    else if truthy inp.enP && truthy inp.enT then
      let count := (s.count + 1) % 16
      .ok { count := count,
            lastClock := s.lastClock,
            qDrive := (int_to_list count 4).map some,
            carryDrive := count == 15 && truthy inp.enT }
    else
      .ok s

/-!
## `Ram` (71256 static RAM)
-/

/-- Internal state of a `Ram`: the `2 ** 15`-word memory and the chip's
drive on the eight IO pins (`none` = `_high_z`, all sources detached). -/
structure RamState where
  memory : Nat → Nat
  ioDrive : Option (List Bool)

/-- Resolved input pin levels for one `Ram.evaluate` call.  `addr` is
`self.address_lines` — the fourteen pins A0–A13; pin A14 exists on the chip
but is not in `address_lines`.  `dataPins` are the externally driven levels
on the IO pins (`evaluate` calls `_high_z` before reading them during a
write, so its own sources never contribute). -/
structure RamInput where
  cs : Option Bool
  we : Option Bool
  oe : Option Bool
  addr : List (Option Bool)
  a14 : Option Bool
  dataPins : List (Option Bool)
  vcc : Option Bool
  gnd : Option Bool

/-- `Ram.evaluate`: power assertions; CHIP_SELECT deasserted (truthy, the
pin is active-low) floats the IO pins; WRITE_ENABLE asserted (falsy) floats
the IO pins and captures the data-pin byte into memory at the address-pin
value; else OUTPUT_ENABLE asserted (falsy) drives the stored byte; else the
IO pins float. -/
def ramEvaluate (inp : RamInput) (s : RamState) : Except String RamState :=
  match powerCheck inp.vcc inp.gnd with
  | .error e => .error e
  | .ok _ =>
    if truthy inp.cs then
      .ok { s with ioDrive := none }
    else if !truthy inp.we then
      let data := list_to_int inp.dataPins
      let address := list_to_int inp.addr
      .ok { memory := fun i => if i = address then data else s.memory i,
            ioDrive := none }
    else if !truthy inp.oe then
      let address := list_to_int inp.addr
      .ok { s with ioDrive := some (int_to_list (s.memory address) 8) }
    else
      .ok { s with ioDrive := none }

/-- `Ram.fiddle`: direct memory write, bypassing the pins. -/
def ramFiddle (address data : Nat) (s : RamState) : RamState :=
  { s with memory := fun i => if i = address then data else s.memory i }

/-!
## `Output` unit (`assembly.py`)
-/

/-- `Output.evaluate`: clear resets the held value; otherwise, when the
clock and the enable line are truthy, latch the bus value as an integer,
substituting `False` for floating bits (`i or False`). -/
def outputEvaluate (clk clr enable : Option Bool) (bus : List (Option Bool))
    (value : Nat) : Nat :=
  if truthy clr then 0
  else if truthy clk && truthy enable then
    list_to_int (bus.map (fun i => some (truthy i)))
  else value

/-- Substituting a definite 0 for every floating bit. -/
def subst0 (values : List (Option Bool)) : List (Option Bool) :=
  values.map (fun b => some (truthy b))

end Eater

namespace Eater

/-- C1: resolving a `Junction` returns `Floating` when no non-floating input
is collected, the common level when all collected inputs agree (a single
driver resolves to its level), a `ConflictError` when collected levels
disagree, and — since `Junction.state` reads the network without mutating
it — repeated resolutions without intervening writes return the same result
(the model is a pure function, so the last conjunct is definitional). -/
theorem C1_junction_resolution (sources : List Bool) (conductors : List JNode)
    (childStates : List (Option Bool))
    (hc : JNode.stateList conductors = .ok childStates) :
    (sources ++ childStates.filterMap id = [] →
      (JNode.mk sources conductors).state = .ok none) ∧
    (∀ v : Bool, sources ++ childStates.filterMap id ≠ [] →
      (∀ x ∈ sources ++ childStates.filterMap id, x = v) →
      (JNode.mk sources conductors).state = .ok (some v)) ∧
    (∀ d : Bool, (JNode.mk [d] []).state = .ok (some d)) ∧
    (true ∈ sources ++ childStates.filterMap id →
      false ∈ sources ++ childStates.filterMap id →
      (JNode.mk sources conductors).state =
        .error "Conductors have different logic levels.") ∧
    ((JNode.mk sources conductors).state = (JNode.mk sources conductors).state) := by
  refine ⟨?_, ?_, ?_, ?_, rfl⟩
  · intro h
    simp only [JNode.state, hc, h, List.isEmpty_nil, if_true]
  · intro v hne hall
    simp only [JNode.state, hc]
    rw [if_neg (by simpa using hne)]
    cases v
    · rcases List.exists_mem_of_ne_nil _ hne with ⟨x, hx⟩
      have hx0 : x = false := hall x hx
      have hall1 : (sources ++ childStates.filterMap id).all (fun b => b) = false :=
        List.all_eq_false.mpr ⟨x, hx, by simp [hx0]⟩
      have hany : (sources ++ childStates.filterMap id).any (fun b => b) = false := by
        simp only [List.any_eq_false]
        intro y hy
        simp [hall y hy]
      rw [if_neg (by simp [hall1, hany])]
      simp [hall1]
    · have hall1 : (sources ++ childStates.filterMap id).all (fun b => b) = true :=
        List.all_eq_true.mpr (fun y hy => by simp [hall y hy])
      rw [if_neg (by simp [hall1])]
      simp [hall1]
  · intro d
    cases d <;> simp [JNode.state, JNode.stateList]
  · intro htrue hfalse
    have hne : sources ++ childStates.filterMap id ≠ [] := by
      intro h
      rw [h] at htrue
      exact absurd htrue (List.not_mem_nil _)
    simp only [JNode.state, hc]
    rw [if_neg (by simpa using hne)]
    have h1 : (sources ++ childStates.filterMap id).all (fun b => b) = false :=
      List.all_eq_false.mpr ⟨false, hfalse, by simp⟩
    have h2 : (sources ++ childStates.filterMap id).any (fun b => b) = true :=
      List.any_eq_true.mpr ⟨true, htrue, by simp⟩
    rw [if_pos (by simp [h1, h2])]

/-- Witness for C1 at a concrete network: a junction with the single driver
level `true` resolves to `true`. -/
theorem C1_junction_resolution_witness :
    (JNode.mk [true] []).state = .ok (some true) :=
  (C1_junction_resolution [true] [] [] rfl).2.2.1 true

/-- Setting an index back to the element already stored there is the
identity. -/
lemma set_getD_self {α : Type} : ∀ (l : List α) (i : Nat) (d : α),
    l.set i (l.getD i d) = l
  | [], _, _ => rfl
  | _ :: _, 0, _ => rfl
  | a :: tl, i + 1, d => by
    simpa [List.set, List.getD] using set_getD_self tl i d

/-- The wiring of the network at index `i`. -/
lemma wiring_getD (g : JGraph) (i : Nat) :
    (wiring g).getD i [] = (g.getD i default).conductors := by
  simp only [List.getD_eq_getElem?_getD, wiring, List.getElem?_map]
  cases h : g[i]? <;> rfl

/-- Updating one node's sources leaves the wiring unchanged. -/
lemma wiring_set_upd (g : JGraph) (i : Nat) (upd : GNode → GNode)
    (hupd : ∀ nd, (upd nd).conductors = nd.conductors) :
    wiring (g.set i (upd (g.getD i default))) = wiring g := by
  unfold wiring
  rw [List.map_set, hupd]
  rw [show (g.getD i default).conductors =
        (g.map GNode.conductors).getD i [] from (wiring_getD g i).symm]
  exact set_getD_self _ _ _

/-- If every child resolves within the budget, the child sweep succeeds. -/
lemma statesVia_isSome {rec : Nat → Option (Except String (Option Bool))} :
    ∀ {cs : List Nat}, (∀ c ∈ cs, (rec c).isSome) →
      ∃ rs, statesVia rec cs = some rs := by
  intro cs
  induction cs with
  | nil => exact fun _ => ⟨[], rfl⟩
  | cons c cs ih =>
    intro h
    obtain ⟨r, hr⟩ := Option.isSome_iff_exists.mp (h c (by simp))
    obtain ⟨rs, hrs⟩ := ih (fun x hx => h x (by simp [hx]))
    exact ⟨r :: rs, by simp [statesVia, hr, hrs]⟩

/-- On a network admitting a rank function that decreases across child
edges, `Junction.state` succeeds once the budget exceeds the node's rank. -/
lemma stateFuel_isSome (g : JGraph) (rank : Nat → Nat)
    (hacyc : ∀ i j, j ∈ (g.getD i default).conductors → rank j < rank i) :
    ∀ fuel i, rank i < fuel → (stateFuel g fuel i).isSome := by
  intro fuel
  induction fuel with
  | zero => exact fun i h => absurd h (Nat.not_lt_zero _)
  | succ f ih =>
    intro i hi
    have hkids : ∀ c ∈ (g.getD i default).conductors, (stateFuel g f c).isSome :=
      fun c hc => ih c (Nat.lt_of_lt_of_le (hacyc i c hc) (Nat.lt_succ_iff.mp hi))
    obtain ⟨rs, hrs⟩ := statesVia_isSome hkids
    show (stateStep (stateFuel g f) g i).isSome
    simp only [stateStep, hrs]
    cases h2 : collectStates rs with
    | error e => simp [h2]
    | ok childStates =>
      simp only [h2]
      split
      · simp
      · split <;> simp

/-- `set`/`clear` succeed below the budget on a ranked network, and preserve
the wiring. -/
lemma touchFuel_total (upd : GNode → GNode)
    (hupd : ∀ nd, (upd nd).conductors = nd.conductors)
    (g : JGraph) (rank : Nat → Nat)
    (hacyc : ∀ i j, j ∈ (g.getD i default).conductors → rank j < rank i) :
    ∀ fuel i g2, wiring g2 = wiring g → rank i < fuel →
      ∃ g3, touchFuel upd fuel i g2 = some g3 ∧ wiring g3 = wiring g := by
  intro fuel
  induction fuel with
  | zero => exact fun i g2 _ h => absurd h (Nat.not_lt_zero _)
  | succ f ih =>
    intro i g2 hw hi
    simp only [touchFuel]
    have hw3 : wiring (g2.set i (upd (g2.getD i default))) = wiring g := by
      rw [wiring_set_upd g2 i upd hupd, hw]
    have hchild :
        ∀ c ∈ ((g2.set i (upd (g2.getD i default))).getD i default).conductors,
          rank c < f := by
      intro c hc
      rw [← wiring_getD, hw3, wiring_getD] at hc
      exact Nat.lt_of_lt_of_le (hacyc i c hc) (Nat.lt_succ_iff.mp hi)
    have inner : ∀ cs, (∀ c ∈ cs, rank c < f) →
        ∀ gx, wiring gx = wiring g →
        ∃ g3, overChildren (touchFuel upd f) cs gx = some g3 ∧
          wiring g3 = wiring g := by
      intro cs
      induction cs with
      | nil => exact fun _ gx hgx => ⟨gx, rfl, hgx⟩
      | cons c cs ihc =>
        intro hcs gx hgx
        obtain ⟨gy, hy, hwy⟩ := ih c gx hgx (hcs c (by simp))
        obtain ⟨gz, hz, hwz⟩ := ihc (fun x hx => hcs x (by simp [hx])) gy hwy
        exact ⟨gz, by simp [overChildren, hy, hz], hwz⟩
    exact inner _ hchild _ hw3

/-- On the cyclic network, resolving either junction exhausts every
recursion budget. -/
lemma stateFuel_cycleGraph_none :
    ∀ fuel, stateFuel cycleGraph fuel 0 = none ∧
      stateFuel cycleGraph fuel 1 = none := by
  intro fuel
  induction fuel with
  | zero => exact ⟨rfl, rfl⟩
  | succ f ih =>
    constructor
    · have h1 : stateFuel ([⟨[], [1]⟩, ⟨[], [0]⟩] : JGraph) f 1 = none := ih.2
      show stateStep (stateFuel cycleGraph f) cycleGraph 0 = none
      simp [stateStep, cycleGraph, statesVia, List.getD, h1]
    · have h0 : stateFuel ([⟨[], [1]⟩, ⟨[], [0]⟩] : JGraph) f 0 = none := ih.1
      show stateStep (stateFuel cycleGraph f) cycleGraph 1 = none
      simp [stateStep, cycleGraph, statesVia, List.getD, h0]

/-- C9 counterexample: on the network in which two junctions reference each
other as child conductors, resolving a junction's state does not terminate —
the recursion in `Junction.state` has no cycle protection, so no recursion
depth suffices (Python raises `RecursionError`). -/
theorem C9_cycle_resolution_diverges : ¬ resolves cycleGraph 0 := by
  rintro ⟨fuel, h⟩
  rw [(stateFuel_cycleGraph_none fuel).1] at h
  simp at h

/-- C9 amended: node resolution and driver attachment/removal (`set` and
`clear`) terminate on every acyclic network — one admitting a rank function
that decreases across child-conductor edges — while on a cyclic network they
recurse without bound (see the counterexample). -/
theorem C9_acyclic_termination (g : JGraph) (rank : Nat → Nat)
    (hacyc : ∀ i j, j ∈ (g.getD i default).conductors → rank j < rank i) :
    (∀ i, resolves g i) ∧
    (∀ src i, ∃ fuel g2, setFuel src fuel i g = some g2) ∧
    (∀ srcId i, ∃ fuel g2, clearFuel srcId fuel i g = some g2) := by
  refine ⟨?_, ?_, ?_⟩
  · intro i
    exact ⟨rank i + 1, stateFuel_isSome g rank hacyc (rank i + 1) i (Nat.lt_succ_self _)⟩
  · intro src i
    obtain ⟨g3, h3, _⟩ :=
      touchFuel_total (fun nd => addSource nd src)
        (fun nd => by
          show (addSource nd src).conductors = nd.conductors
          unfold addSource
          split <;> rfl) g rank hacyc
        (rank i + 1) i g rfl (Nat.lt_succ_self _)
    exact ⟨rank i + 1, g3, h3⟩
  · intro srcId i
    obtain ⟨g3, h3, _⟩ :=
      touchFuel_total (fun nd => removeSource nd srcId)
        (fun _ => rfl) g rank hacyc
        (rank i + 1) i g rfl (Nat.lt_succ_self _)
    exact ⟨rank i + 1, g3, h3⟩

/-- C2: with both output-enable pins (M, N) low, CLEAR low and both
data-enable pins (G1, G2) low, an evaluate in which CLK resolves high while
the previously sampled clock is low copies the four D levels into the
stored state and drives them on the Q outputs; a subsequent evaluate with
the same control levels, changed D inputs and no new rising edge detected
(the sampled clock is now high) leaves the stored state and the Q drives
unchanged. -/
theorem C2_dreg_rising_edge_latch (l0 : List (Option Bool))
    (q0 : List (Option (Option Bool))) (d d2 : List (Option Bool))
    (clk2 : Option Bool) :
    ∃ s1, dregEvaluate
        ⟨some false, some false, some false, some false, some false, some true,
          d, some true, some false⟩ ⟨l0, false, q0⟩ = .ok s1 ∧
      s1.latch = d ∧ s1.qDrive = d.map some ∧ s1.lastClock = true ∧
      dregEvaluate
        ⟨some false, some false, some false, some false, some false, clk2,
          d2, some true, some false⟩ s1 = .ok s1 := by
  refine ⟨⟨d, true, d.map some⟩, ?_, rfl, rfl, rfl, ?_⟩
  · simp [dregEvaluate, powerCheck, truthy]
  · simp [dregEvaluate, powerCheck, truthy]

/-- C6 (code bug): `FourBitDRegister.evaluate` assigns `self._last_clock`
only inside the rising-edge branch, so it does *not* equal the CLK level
sampled by every call.  Starting from a register that has latched once
(last-seen clock `true`), an evaluate sampling CLK low leaves the last-seen
clock `true`, and the next CLK-high evaluate — a low-to-high transition the
spec requires to be detected — latches nothing: all-low D inputs with both
data enables low leave the all-high stored state untouched. -/
theorem C6_last_clock_stuck :
    (dregEvaluate
        ⟨some false, some false, some false, some false, some false, some false,
          List.replicate 4 (some false), some true, some false⟩
        ⟨List.replicate 4 (some true), true,
          List.replicate 4 (some (some true))⟩ =
      .ok ⟨List.replicate 4 (some true), true,
        List.replicate 4 (some (some true))⟩) ∧
    (dregEvaluate
        ⟨some false, some false, some false, some false, some false, some true,
          List.replicate 4 (some false), some true, some false⟩
        ⟨List.replicate 4 (some true), true,
          List.replicate 4 (some (some true))⟩ =
      .ok ⟨List.replicate 4 (some true), true,
        List.replicate 4 (some (some true))⟩) :=
  ⟨rfl, rfl⟩

/-- C7 counterexample: evaluate with output-enable M high and CLEAR high
does *not* leave the Q outputs floating — the output-enable branch has no
early return, so the clear branch re-drives all four Q outputs low. -/
theorem C7_counterexample :
    dregEvaluate
        ⟨some true, some false, some true, some false, some false, some false,
          List.replicate 4 none, some true, some false⟩
        ⟨List.replicate 4 (some true), false,
          List.replicate 4 (some (some true))⟩ =
      .ok ⟨List.replicate 4 (some false), false,
        List.replicate 4 (some (some false))⟩ ∧
    (List.replicate 4 (some (some false)) : List (Option (Option Bool))) ≠
      List.replicate 4 none :=
  ⟨rfl, by simp⟩

/-- C7 amended: whenever evaluate runs with either active-high output-enable
pin (M, N) resolving high, the four Q outputs are released at the start of
the call, and they are left floating after the call provided CLEAR is low
and no rising-edge latch occurs (a data-enable pin high, or no rising edge
detected); when CLEAR is high, or a rising edge latches with data-enable
low, the same call re-drives the Q outputs. -/
theorem C7_output_enable_release (inp : DRegInput) (s : DRegState)
    (hp : powerCheck inp.vcc inp.gnd = .ok ())
    (hoe : (truthy inp.n || truthy inp.m) = true)
    (hclr : truthy inp.clr = false)
    (hnolatch : (truthy inp.g1 || truthy inp.g2 ||
      !(truthy inp.clk && !s.lastClock)) = true) :
    ∃ s1, dregEvaluate inp s = .ok s1 ∧ s1.qDrive = List.replicate 4 none := by
  simp only [dregEvaluate, hp, hoe, if_true, hclr, Bool.false_eq_true, if_false]
  by_cases hg : (truthy inp.g1 || truthy inp.g2) = true
  · rw [if_pos hg]
    exact ⟨_, rfl, rfl⟩
  · rw [if_neg hg]
    rw [if_neg ?hedge]
    case hedge =>
      simp only [hg, Bool.false_or] at hnolatch
      simp only [Bool.not_eq_true, Bool.and_eq_true, not_and, Bool.not_eq_false]
      intro hclk
      rw [hclk] at hnolatch
      simpa using hnolatch
    exact ⟨_, rfl, rfl⟩

/-- Witness for C7 (amended): output enable high with CLEAR low, data
enables low and CLK low leaves the Q outputs floating. -/
theorem C7_output_enable_release_witness :
    ∃ s1, dregEvaluate
        ⟨some true, some false, some false, some false, some false, some false,
          List.replicate 4 none, some true, some false⟩
        ⟨List.replicate 4 (some true), false,
          List.replicate 4 (some (some true))⟩ = .ok s1 ∧
      s1.qDrive = List.replicate 4 none :=
  C7_output_enable_release _ _ rfl rfl rfl rfl

/-- Round-trip of the bit conversions on a definite byte. -/
lemma int_to_list_list_to_int_byte (b0 b1 b2 b3 b4 b5 b6 b7 : Bool) :
    int_to_list
      (list_to_int [some b0, some b1, some b2, some b3, some b4, some b5,
        some b6, some b7]) 8 = [b0, b1, b2, b3, b4, b5, b6, b7] := by
  revert b0 b1 b2 b3 b4 b5 b6 b7
  decide

/-- The accumulator of the `list_to_int` fold stays below `2 ^ n` while the
indices stay below `n`. -/
lemma list_to_int_fold_lt (n : Nat) :
    ∀ (l : List (Option Bool)) (k acc : Nat), acc < 2 ^ n → k + l.length ≤ n →
      (List.enumFrom k l).foldl
        (fun value p => if truthy p.2 then value ||| (1 <<< p.1) else value)
        acc < 2 ^ n := by
  intro l
  induction l with
  | nil => intro k acc hacc _; simpa using hacc
  | cons b tl ih =>
    intro k acc hacc hlen
    simp only [List.enumFrom, List.foldl_cons]
    have hk : k < n := by simp only [List.length_cons] at hlen; omega
    have hstep : (if truthy b then acc ||| (1 <<< k) else acc) < 2 ^ n := by
      split
      · exact Nat.or_lt_two_pow hacc
          (by rw [Nat.one_shiftLeft]; exact Nat.pow_lt_pow_right (by norm_num) hk)
      · exact hacc
    exact ih (k + 1) _ hstep (by simp only [List.length_cons] at hlen; omega)

/-- `list_to_int` of an `n`-bit list is below `2 ^ n`. -/
lemma list_to_int_lt (l : List (Option Bool)) : list_to_int l < 2 ^ l.length := by
  have h := list_to_int_fold_lt l.length l 0 0 (by positivity) (by simp)
  simpa [list_to_int, List.enum] using h

/-- The `list_to_int` fold depends only on the truthiness of each bit. -/
lemma subst0_fold :
    ∀ (l : List (Option Bool)) (k acc : Nat),
      (List.enumFrom k (subst0 l)).foldl
        (fun value p => if truthy p.2 then value ||| (1 <<< p.1) else value)
        acc =
      (List.enumFrom k l).foldl
        (fun value p => if truthy p.2 then value ||| (1 <<< p.1) else value)
        acc := by
  intro l
  induction l with
  | nil => intro k acc; rfl
  | cons b tl ih =>
    intro k acc
    rw [show subst0 (b :: tl) = some (truthy b) :: subst0 tl from rfl]
    simp only [List.enumFrom, List.foldl_cons]
    rw [show truthy (some (truthy b)) = truthy b from rfl]
    exact ih (k + 1) _

/-- Substituting 0 for the floating bits leaves `list_to_int` unchanged. -/
lemma list_to_int_subst0 (l : List (Option Bool)) :
    list_to_int (subst0 l) = list_to_int l := by
  have h := subst0_fold l 0 0
  simpa [list_to_int, List.enum] using h

/-- C3 (code bug): `BinaryCounter.evaluate` never records the high clock
level after acting on a detected rising edge — `self._last_clock` is
assigned only in the no-edge branch — so from a fresh counter with CLEAR
and LOAD deasserted and both enables high, two consecutive evaluates with
CLK held high increment twice (0 → 1 → 2), although the source comment says
"Only operate on rising edge" and the claim allows at most one increment. -/
theorem C3_double_increment :
    counterEvaluate
        ⟨some true, some true, some true, some true, some true,
          List.replicate 4 none, some true, some false⟩
        ⟨0, some false, List.replicate 4 none, false⟩ =
      .ok ⟨1, some false, (int_to_list 1 4).map some, false⟩ ∧
    counterEvaluate
        ⟨some true, some true, some true, some true, some true,
          List.replicate 4 none, some true, some false⟩
        ⟨1, some false, (int_to_list 1 4).map some, false⟩ =
      .ok ⟨2, some false, (int_to_list 2 4).map some, false⟩ :=
  ⟨rfl, rfl⟩

/-- C8 counterexample: `QuadNorGate` lists `PoweredPart` before `LogicPart`,
so a call with VCC low computes and drives all four gate outputs *before*
the power assertion raises: the failing call changes the output drives from
released to driven-high. -/
theorem C8_counterexample :
    quadNorGateEvaluate (some false) (some false)
        (List.replicate 4 (some false, some false)) (List.replicate 4 none) =
      ⟨List.replicate 4 (some true), some "VCC is not high."⟩ ∧
    (List.replicate 4 (some true) : List (Option Bool)) ≠
      List.replicate 4 none :=
  ⟨rfl, by simp⟩

/-- C8 amended: every powered part whose VCC does not resolve high or whose
GND does not resolve low fails its evaluate with the power assertion error,
which propagates to the caller.  The sequential parts (register, counter,
RAM) and `QuadNandGate` (base order `(LogicPart, PoweredPart)`) fail before
driving any output, but the gate arrays declared `(PoweredPart, LogicPart)`
(`QuadNorGate` and the other 74-series arrays) compute and drive their gate
outputs before the failing power check. -/
theorem C8_power_failure (vcc gnd : Option Bool) (e : String)
    (hp : powerCheck vcc gnd = .error e) :
    (∀ ins prev, quadNandGateEvaluate vcc gnd ins prev = ⟨prev, some e⟩) ∧
    (∀ ins prev, quadNorGateEvaluate vcc gnd ins prev =
      ⟨ins.map (fun p => some (norLevel p.1 p.2)), some e⟩) ∧
    (∀ m n clr g1 g2 clk d s,
      dregEvaluate ⟨m, n, clr, g1, g2, clk, d, vcc, gnd⟩ s = .error e) ∧
    (∀ clr load clk enP enT d s,
      counterEvaluate ⟨clr, load, clk, enP, enT, d, vcc, gnd⟩ s = .error e) ∧
    (∀ cs we oe addr a14 dataPins s,
      ramEvaluate ⟨cs, we, oe, addr, a14, dataPins, vcc, gnd⟩ s = .error e) := by
  refine ⟨?_, ?_, ?_, ?_, ?_⟩
  · intro ins prev
    simp [quadNandGateEvaluate, hp]
  · intro ins prev
    simp [quadNorGateEvaluate, hp]
  · intro m n clr g1 g2 clk d s
    simp [dregEvaluate, hp]
  · intro clr load clk enP enT d s
    simp [counterEvaluate, hp]
  · intro cs we oe addr a14 dataPins s
    simp [ramEvaluate, hp]

/-- Witness for C8 (amended): VCC low fails a `QuadNandGate` evaluate with
the assertion message, leaving the prior drives untouched. -/
theorem C8_power_failure_witness :
    quadNandGateEvaluate (some false) (some false) [] [] =
      ⟨[], some "VCC is not high."⟩ :=
  (C8_power_failure (some false) (some false) "VCC is not high." rfl).1 [] []

/-- C4: with power correct, CHIP_SELECT asserted low and VCC/GND right, an
evaluate with WRITE_ENABLE asserted (low) captures the data-pin byte into
memory at the address-pin value, and a following evaluate with WRITE_ENABLE
deasserted (high) and OUTPUT_ENABLE asserted (low) at the same address
drives the written byte back onto the eight data pins. -/
theorem C4_ram_read_after_write (s0 : RamState) (a d2 : List (Option Bool))
    (oe1 a14a a14b : Option Bool) (b0 b1 b2 b3 b4 b5 b6 b7 : Bool) :
    ∃ s1, ramEvaluate
        ⟨some false, some false, oe1, a, a14a,
          [some b0, some b1, some b2, some b3, some b4, some b5, some b6,
            some b7], some true, some false⟩ s0 = .ok s1 ∧
      s1.memory (list_to_int a) =
        list_to_int [some b0, some b1, some b2, some b3, some b4, some b5,
          some b6, some b7] ∧
      ∃ s2, ramEvaluate
          ⟨some false, some true, some false, a, a14b, d2, some true,
            some false⟩ s1 = .ok s2 ∧
        s2.ioDrive = some [b0, b1, b2, b3, b4, b5, b6, b7] := by
  refine ⟨⟨fun i => if i = list_to_int a then
      list_to_int [some b0, some b1, some b2, some b3, some b4, some b5,
        some b6, some b7] else s0.memory i, none⟩, rfl, by simp, ?_⟩
  refine ⟨_, rfl, ?_⟩
  show some (int_to_list (if list_to_int a = list_to_int a then
      list_to_int [some b0, some b1, some b2, some b3, some b4, some b5,
        some b6, some b7] else s0.memory (list_to_int a)) 8) = _
  rw [if_pos rfl, int_to_list_list_to_int_byte]

/-- C10 (implicit): the RAM computes its address from `address_lines` —
pins A0 through A13 only, pin A14 never participates — so the write address
is below `2 ^ 14 = 16384`, every memory word at index 16384 or above is left
unchanged by `evaluate`, and a read drives a byte taken from an index below
16384 (words 16384–32767 change only through `fiddle`). -/
theorem C10_ram_address_is_14_bits (inp : RamInput) (s : RamState)
    (haddr : inp.addr.length = 14) :
    (∀ x y, ramEvaluate { inp with a14 := x } s =
      ramEvaluate { inp with a14 := y } s) ∧
    list_to_int inp.addr < 16384 ∧
    (∀ s2, ramEvaluate inp s = .ok s2 →
      (∀ i, 16384 ≤ i → s2.memory i = s.memory i) ∧
      (∀ bits, s2.ioDrive = some bits →
        bits = int_to_list (s.memory (list_to_int inp.addr)) 8)) := by
  have hb : list_to_int inp.addr < 16384 := by
    have h := list_to_int_lt inp.addr
    rw [haddr] at h
    simpa using h
  refine ⟨fun x y => rfl, hb, ?_⟩
  intro s2 h
  simp only [ramEvaluate] at h
  cases hp : powerCheck inp.vcc inp.gnd with
  | error e => rw [hp] at h; cases h
  | ok u =>
    rw [hp] at h
    split_ifs at h with h1 h2 h3
    all_goals
      simp only [Except.ok.injEq] at h
    · subst h
      exact ⟨fun i _ => rfl, fun bits hbits => by cases hbits⟩
    · subst h
      refine ⟨?_, fun bits hbits => by cases hbits⟩
      intro i hi
      show (if i = list_to_int inp.addr then list_to_int inp.dataPins
        else s.memory i) = s.memory i
      rw [if_neg (by omega)]
    · subst h
      refine ⟨fun i _ => rfl, ?_⟩
      intro bits hbits
      simp only [Option.some.injEq] at hbits
      exact hbits.symm
    · subst h
      exact ⟨fun i _ => rfl, fun bits hbits => by cases hbits⟩

/-- Witness for C10 at a concrete 14-line address bus. -/
theorem C10_ram_address_is_14_bits_witness :
    list_to_int (List.replicate 14 none) < 16384 :=
  (C10_ram_address_is_14_bits
    ⟨none, none, none, List.replicate 14 none, none, [], none, none⟩
    ⟨fun _ => 0, none⟩ (by simp)).2.1

/-- C5 counterexample: the RAM's data capture coerces a floating bit to 0 —
writing the data pins `x1xxxxxx` (bit 0 floating, bit 1 high) stores exactly
2, the integer obtained by substituting 0 for the floating bits, although
the claim requires the operation never to produce that integer when a bit
floats. -/
theorem C5_counterexample :
    (none ∈ ([none, some true, none, none, none, none, none, none] :
      List (Option Bool))) ∧
    ∃ s2, ramEvaluate
        ⟨some false, some false, none, List.replicate 14 (some false), none,
          [none, some true, none, none, none, none, none, none],
          some true, some false⟩ ⟨fun _ => 0, none⟩ = .ok s2 ∧
      s2.memory (list_to_int (List.replicate 14 (some false))) = 2 ∧
      list_to_int (subst0
        [none, some true, none, none, none, none, none, none]) = 2 := by
  refine ⟨by simp, ⟨fun i => if i = list_to_int (List.replicate 14 (some false))
      then list_to_int [none, some true, none, none, none, none, none, none]
      else 0, none⟩, rfl, ?_, by decide⟩
  show (if list_to_int (List.replicate 14 (some false)) =
      list_to_int (List.replicate 14 (some false)) then
      list_to_int [none, some true, none, none, none, none, none, none]
    else 0) = 2
  rw [if_pos rfl]
  decide

/-- C5 amended: the integer conversions in the core coerce floating bits to
0 rather than treating them as a third state: `list_to_int` of any bit list
equals `list_to_int` of the list with 0 substituted for the floating bits,
the RAM's data capture during a write stores exactly that coerced integer,
and the Output unit's displayed value is exactly that coerced integer
(`i or False`).  Only the bit-string renderer keeps a distinct `x` state. -/
theorem C5_floating_bits_coerced (values : List (Option Bool)) :
    list_to_int values = list_to_int (subst0 values) ∧
    (∀ inp s s2, ramEvaluate inp s = .ok s2 → truthy inp.cs = false →
      truthy inp.we = false →
      s2.memory (list_to_int inp.addr) = list_to_int (subst0 inp.dataPins)) ∧
    (∀ clk clr enable bus value, truthy clr = false → truthy clk = true →
      truthy enable = true →
      outputEvaluate clk clr enable bus value = list_to_int (subst0 bus)) := by
  refine ⟨(list_to_int_subst0 values).symm, ?_, ?_⟩
  · intro inp s s2 h hcs hwe
    simp only [ramEvaluate] at h
    cases hp : powerCheck inp.vcc inp.gnd with
    | error e => rw [hp] at h; cases h
    | ok u =>
      rw [hp] at h
      rw [if_neg (by simp [hcs]), if_pos (by simp [hwe])] at h
      simp only [Except.ok.injEq] at h
      subst h
      show (if list_to_int inp.addr = list_to_int inp.addr then
          list_to_int inp.dataPins else s.memory (list_to_int inp.addr)) = _
      rw [if_pos rfl, list_to_int_subst0]
  · intro clk clr enable bus value hclr hclk hen
    simp only [outputEvaluate, hclr, hclk, hen]
    rfl

/-- Witness for C5 (amended): a bus with a floating bit and bit 1 high is
displayed by the Output unit as 2, the 0-substituted integer. -/
theorem C5_floating_bits_coerced_witness :
    outputEvaluate (some true) (some false) (some true)
      [none, some true, none, none, none, none, none, none] 0 =
    list_to_int (subst0 [none, some true, none, none, none, none, none,
      none]) :=
  (C5_floating_bits_coerced []).2.2 (some true) (some false) (some true)
    [none, some true, none, none, none, none, none, none] 0 rfl rfl rfl

/-- Witness for C9 (amended) on a concrete acyclic network. -/
theorem C9_acyclic_termination_witness : resolves chainGraph 0 :=
  (C9_acyclic_termination chainGraph (fun i => 1 - i)
    (by
      intro i j hj
      match i with
      | 0 =>
        simp [chainGraph, List.getD] at hj
        subst hj
        decide
      | 1 => simp [chainGraph, List.getD] at hj
      | n + 2 =>
        simp [chainGraph, List.getD,
          show (default : GNode).conductors = [] from rfl] at hj)).1 0

end Eater
